import Mathlib

/-!
Shallow embedding of the buffer-queue / transfer-scheduler / worker-loop
core of the WM8994 audio codec driver (wm8994.c).

The driver state struct `wm8994_dev_s` becomes `Wm8994Dev`.  Besides the
fields the C struct holds, the model carries history fields (`hwq`,
`i2sLog`, `doneRet`, `forceReleased`, `enqTrace`, `workerDone`) that only
record what the surrounding system observed: which buffers were handed to
I2S_SEND and with what timeout, which were returned upstream from the done
queue, which were force-released in the worker's exit drain, and the order
of enqueue calls.  They are written exactly where the corresponding
external call happens in the C code and are never read by the modelled
driver logic itself.

Asynchrony (the I2S completion callback, the worker thread's message loop,
API calls from other threads) is modelled by the step relation `step`: each
event is one lock-protected slice of the C code, and a run is an arbitrary
interleaving of such events.
-/

namespace WM8994

/-- Return value OK (0) used by the NuttX driver functions. -/
def OK : Int := 0

/-- errno EBUSY: wm8994_reserve returns -EBUSY on a double reserve. -/
def EBUSY : Int := 16

/-- errno ENOMEM: wm8994_start returns -ENOMEM when mq_open fails. -/
def ENOMEM : Int := 12

/-- An audio pipeline buffer (struct ap_buffer_s) reduced to the fields the
driver logic reads or writes: the consumed-bytes cursor `curbyte`, the
total length `nbytes`, the two flag bits the driver tests or sets
(AUDIO_APB_FINAL and AUDIO_APB_OUTPUT_ENQUEUED, modelled as Bools because
their numeric values live in an external header), the reference count
`nrefs`, and an identity `ident` standing for the buffer's address. -/
structure ApBuffer where
  ident : Nat
  curbyte : Nat
  nbytes : Nat
  apbFinal : Bool
  apbEnqueued : Bool
  nrefs : Nat
deriving DecidableEq

/-- Environment parameters of the driver: the configured in-flight cap
CONFIG_WM8994_INFLIGHT, the MSEC2TICK conversion (an external clock.h
macro, kept abstract), and the result each I2S_SEND submission would get
back from the I2S lower half. -/
structure Config where
  maxInflight : Nat
  msec2tick : Nat → Nat
  sendRes : ApBuffer → Int

/-- The driver state, struct wm8994_dev_s, restricted to the fields the
queue/worker logic uses, plus history fields (see the file comment). -/
structure Wm8994Dev where
  pendq : List ApBuffer
  doneq : List ApBuffer
  inflight : Nat
  running : Bool
  paused : Bool
  terminating : Bool
  reserved : Bool
  mqOpen : Bool
  threadid : Nat
  volume : Nat
  samprate : Nat
  nchannels : Nat
  bpsamp : Nat
  result : Int
  hwq : List ApBuffer
  i2sLog : List (ApBuffer × Nat)
  doneRet : List ApBuffer
  forceReleased : List ApBuffer
  enqTrace : List ApBuffer
  workerDone : Bool
deriving DecidableEq

/-- wm8994_senddone (lines 1333-1385), the I2S completion callback: under a
critical section the completed buffer is appended to the tail of doneq and
inflight is decremented (the C code DEBUGASSERTs inflight > 0 first); the
transfer result is recorded.  The AUDIO_MSG_COMPLETE message it then posts
is delivered by the step relation as a `Msg.completeMsg` worker event, and
the pop of the ghost `hwq` is done by the step relation. -/
def wm8994_senddone (priv : Wm8994Dev) (apb : ApBuffer) (result : Int) : Wm8994Dev :=
  { priv with
      doneq := priv.doneq ++ [apb]
      inflight := priv.inflight - 1
      result := result }

/-- External effects of wm8994_returnbuffers, in program order:
`setTerminating` marks the assignment priv->terminating = true, `freeBuf`
the apb_free call, `notifyDequeue` the AUDIO_CALLBACK_DEQUEUE upper-half
callback. -/
inductive Effect where
  | setTerminating
  | freeBuf (apb : ApBuffer)
  | notifyDequeue (apb : ApBuffer)
deriving DecidableEq

/-- Loop of wm8994_returnbuffers (lines 1397-1452) over the done queue; the
list argument is the current doneq (the caller passes priv.doneq).  Each
iteration pops the head; if it carries AUDIO_APB_FINAL the DEBUGASSERT
checks that doneq (after the pop), pendq and inflight are all empty/zero,
and terminating is set; then the buffer is freed and returned upstream.
Second result component: the effects in order; third: whether the
DEBUGASSERT condition held at every final buffer popped. -/
def returnLoop : Wm8994Dev → List ApBuffer → Wm8994Dev × List Effect × Bool
  | priv, [] => (priv, [], true)
  | priv, apb :: rest =>
      let ok := !apb.apbFinal ||
        (rest.isEmpty && priv.pendq.isEmpty && (priv.inflight == 0))
      let priv1 := { priv with
                       doneq := rest
                       terminating := apb.apbFinal || priv.terminating
                       doneRet := priv.doneRet ++ [apb] }
      let r := returnLoop priv1 rest
      (r.1,
       ((if apb.apbFinal then [Effect.setTerminating] else []) ++
         [Effect.freeBuf apb, Effect.notifyDequeue apb]) ++ r.2.1,
       ok && r.2.2)

/-- wm8994_returnbuffers: empty the done queue, releasing each buffer back
upstream, setting terminating when the final buffer of the stream passes. -/
def wm8994_returnbuffers (priv : Wm8994Dev) : Wm8994Dev × List Effect × Bool :=
  returnLoop priv priv.doneq

/-- The timeout shift computed in wm8994_sendbuffer (lines 1525-1526):
shift = (bpsamp == 8) ? 14 - 3 : 14 - 4, then reduced by 1 when
nchannels > 1. -/
def sendShift (priv : Wm8994Dev) : Nat :=
  (if priv.bpsamp = 8 then 14 - 3 else 14 - 4) -
    (if priv.nchannels > 1 then 1 else 0)

/-- The tick timeout passed to I2S_SEND (lines 1528-1529):
MSEC2TICK(((uint32_t)(apb->nbytes - apb->curbyte) << shift) / samprate);
the uint32 shift is taken mod 2^32. -/
def sendTimeout (cfg : Config) (priv : Wm8994Dev) (apb : ApBuffer) : Nat :=
  cfg.msec2tick ((((apb.nbytes - apb.curbyte) <<< sendShift priv) % 2 ^ 32) /
    priv.samprate)

/-- The push loop of wm8994_sendbuffer (lines 1485-1540), run under the
pendq semaphore.  The list argument is the current pendq (the caller
passes priv.pendq).  While inflight < CONFIG_WM8994_INFLIGHT, pendq is
non-empty and the session is not paused: pop the head of pendq, increment
inflight (critical section), compute the timeout and call I2S_SEND (the
call is recorded on i2sLog).  On failure (result < 0) the loop breaks with
that result: the popped buffer is in no queue any more (the C code does
not re-queue it) and inflight stays incremented.  On success the buffer is
appended to the ghost hwq.  `ret` carries the last I2S_SEND result, OK
before the first submission. -/
def sendLoop (cfg : Config) : Wm8994Dev → Int → List ApBuffer → Wm8994Dev × Int
  | priv, ret, [] => (priv, ret)
  | priv, ret, apb :: rest =>
      if priv.inflight < cfg.maxInflight ∧ priv.paused = false then
        let priv1 := { priv with pendq := rest, inflight := priv.inflight + 1 }
        let t := sendTimeout cfg priv1 apb
        let r := cfg.sendRes apb
        let priv2 := { priv1 with i2sLog := priv1.i2sLog ++ [(apb, t)] }
        if r < 0 then (priv2, r)
        else sendLoop cfg { priv2 with hwq := priv2.hwq ++ [apb] } r rest
      else (priv, ret)

/-- wm8994_sendbuffer (lines 1465-1541). -/
def wm8994_sendbuffer (cfg : Config) (priv : Wm8994Dev) : Wm8994Dev × Int :=
  sendLoop cfg priv OK priv.pendq

/-- wm8994_enqueuebuffer (lines 1725-1766): take a reference on the buffer,
set its AUDIO_APB_OUTPUT_ENQUEUED flag, append it to the tail of pendq
under the pendq semaphore, and (when the message queue exists) post an
AUDIO_MSG_ENQUEUE message, delivered by the step relation as worker
events; the nxmq_send is modelled as succeeding. -/
def wm8994_enqueuebuffer (priv : Wm8994Dev) (apb : ApBuffer) : Wm8994Dev × Int :=
  let apb1 := { apb with nrefs := apb.nrefs + 1, apbEnqueued := true }
  ({ priv with
       pendq := priv.pendq ++ [apb1]
       enqTrace := priv.enqTrace ++ [apb1] }, OK)

/-- wm8994_cancelbuffer (lines 1775-1780): the body only logs the buffer
pointer and returns OK. -/
def wm8994_cancelbuffer (priv : Wm8994Dev) (_apb : ApBuffer) : Wm8994Dev × Int :=
  (priv, OK)

/-- wm8994_reserve (lines 1843-1879): under the pendq semaphore, fail with
-EBUSY if already reserved, otherwise initialize the session context. -/
def wm8994_reserve (priv : Wm8994Dev) : Wm8994Dev × Int :=
  if priv.reserved then (priv, -EBUSY)
  else
    ({ priv with
         inflight := 0
         running := false
         paused := false
         terminating := false
         reserved := true }, OK)

/-- wm8994_start (lines 1551-1616): create the worker message queue; if
mq_open returns NULL (mqOpenOk = false), return -ENOMEM at once (priv->mq
has been assigned NULL).  Otherwise join any old worker thread and call
pthread_create, whose result `pthreadRes` is returned; on success the new
thread id is stored.  The worker body itself is the step relation. -/
def wm8994_start (mqOpenOk : Bool) (newTid : Nat) (pthreadRes : Int)
    (priv : Wm8994Dev) : Wm8994Dev × Int :=
  if mqOpenOk = false then ({ priv with mqOpen := false }, -ENOMEM)
  else
    let priv1 := { priv with mqOpen := true }
    if pthreadRes = OK then ({ priv1 with threadid := newTid }, OK)
    else (priv1, pthreadRes)

/-- wm8994_pause (lines 1663-1683): when running and not paused, set paused
(the volume mute and WM8994_DISABLE register operations are out of
scope). -/
def wm8994_pause (priv : Wm8994Dev) : Wm8994Dev × Int :=
  if priv.running = true ∧ priv.paused = false then
    ({ priv with paused := true }, OK)
  else (priv, OK)

/-- wm8994_resume (lines 1692-1716): when running and paused, clear paused,
restore the volume (register operation, out of scope) and immediately call
wm8994_sendbuffer; always returns OK. -/
def wm8994_resume (cfg : Config) (priv : Wm8994Dev) : Wm8994Dev × Int :=
  if priv.running = true ∧ priv.paused = true then
    ((wm8994_sendbuffer cfg { priv with paused := false }).1, OK)
  else (priv, OK)

/-- The message kinds of the worker's message queue (audio_msg_s msg_id). -/
inductive Msg where
  | dataRequest
  | stopMsg
  | enqueueMsg
  | completeMsg
  | unknownMsg
deriving DecidableEq

/-- One iteration of the worker thread loop (lines 2048-2122), given that
the loop continues: call wm8994_sendbuffer (its return value is ignored),
then block to receive one message and dispatch: AUDIO_MSG_STOP sets
terminating, AUDIO_MSG_COMPLETE calls wm8994_returnbuffers, the others
(DATA_REQUEST, ENQUEUE, unrecognized) are no-ops beyond the push already
attempted at the loop top. -/
def workerIter (cfg : Config) (msg : Msg) (priv : Wm8994Dev) : Wm8994Dev :=
  let priv1 := (wm8994_sendbuffer cfg priv).1
  match msg with
  | Msg.stopMsg => { priv1 with terminating := true }
  | Msg.completeMsg => (wm8994_returnbuffers priv1).1
  | _ => priv1

/-- The worker loop continues when the outer condition
(running || inflight > 0) holds and the inner break
(terminating && inflight <= 0) does not fire. -/
def loopContinues (priv : Wm8994Dev) : Bool :=
  (priv.running || decide (0 < priv.inflight)) &&
    !(priv.terminating && (priv.inflight == 0))

/-- The stop-time drain of the pending queue in the worker's exit sequence
(lines 2130-2146): each buffer still pending is removed, its reference
released and returned upstream even though it was never transferred.  The
list argument is the current pendq. -/
def drainLoop : Wm8994Dev → List ApBuffer → Wm8994Dev
  | priv, [] => priv
  | priv, apb :: rest =>
      drainLoop { priv with
                    pendq := rest
                    forceReleased := priv.forceReleased ++ [apb] } rest

/-- The worker's exit sequence (lines 2124-2167): reset the hardware
(register operations, out of scope), force-drain the pending queue, run
wm8994_returnbuffers once more for stragglers, close the message queue and
notify upstream of stream completion. -/
def workerExit (priv : Wm8994Dev) : Wm8994Dev :=
  let priv1 := drainLoop priv priv.pendq
  let priv2 := (wm8994_returnbuffers priv1).1
  { priv2 with mqOpen := false, workerDone := true }

/-- The events of the interleaved system: one worker-loop slice consuming a
message (running the exit sequence once the loop condition fails), one
hardware completion (the ISR-context wm8994_senddone on the oldest
in-flight buffer), or an API call from another thread. -/
inductive Ev where
  | worker (msg : Msg)
  | hwComplete (result : Int)
  | apiEnqueue (apb : ApBuffer)
  | apiPause
  | apiResume
deriving DecidableEq

/-- One atomic slice of the system. -/
def step (cfg : Config) (ev : Ev) (priv : Wm8994Dev) : Wm8994Dev :=
  match ev with
  | Ev.worker msg =>
      if priv.workerDone then priv
      else if loopContinues priv then workerIter cfg msg priv
      else workerExit priv
  | Ev.hwComplete result =>
      match priv.hwq with
      | [] => priv
      | apb :: rest => wm8994_senddone { priv with hwq := rest } apb result
  | Ev.apiEnqueue apb => (wm8994_enqueuebuffer priv apb).1
  | Ev.apiPause => (wm8994_pause priv).1
  | Ev.apiResume => (wm8994_resume cfg priv).1

/-- A run of the system: fold the step relation over a schedule. -/
def run (cfg : Config) : List Ev → Wm8994Dev → Wm8994Dev
  | [], priv => priv
  | ev :: evs, priv => run cfg evs (step cfg ev priv)

/-- How many buffers with identity `i` a list holds. -/
def countId (i : Nat) (l : List ApBuffer) : Nat :=
  l.countP (fun a => a.ident == i)

/-- Buffer conservation: every enqueued buffer is in exactly one of pendq,
the in-flight hardware queue, doneq, the buffers returned upstream from
doneq, or the force-released buffers. -/
def ConsInv (priv : Wm8994Dev) : Prop :=
  ∀ i, countId i priv.enqTrace =
    countId i priv.pendq + countId i priv.hwq + countId i priv.doneq +
    countId i priv.doneRet + countId i priv.forceReleased

/-- The timeout formula as the specification states it.  Modelled from the
spec: expected transfer milliseconds = (bytesRemaining << shift) / r with
shift = (b == 8 ? 11 : 10) - (c > 1 ? 1 : 0), over unsigned 32-bit
arithmetic, then converted to ticks. -/
def specShift (b c : Nat) : Nat :=
  (if b = 8 then 11 else 10) - (if c > 1 then 1 else 0)

/-- The spec's timeout, see `specShift`: MSEC2TICK applied to
((nbytes - curbyte) << specShift b c) / r in unsigned 32-bit arithmetic. -/
def specTimeout (cfg : Config) (b c r nbytes curbyte : Nat) : Nat :=
  cfg.msec2tick ((((nbytes - curbyte) * 2 ^ specShift b c) % 2 ^ 32) / r)

/-- The effects wm8994_returnbuffers emits for a list of non-final buffers:
free and return upstream, one pair per buffer, in queue order. -/
def retEffects : List ApBuffer → List Effect
  | [] => []
  | a :: r => Effect.freeBuf a :: Effect.notifyDequeue a :: retEffects r

/-- The effects wm8994_returnbuffers emits while draining a done queue:
for each buffer, the terminating assignment when it is final, then the
free and the upstream return. -/
def retEffectsAll : List ApBuffer → List Effect
  | [] => []
  | a :: r =>
      ((if a.apbFinal then [Effect.setTerminating] else []) ++
        [Effect.freeBuf a, Effect.notifyDequeue a]) ++ retEffectsAll r

/-- Whether the DEBUGASSERT of wm8994_returnbuffers holds for every final
buffer while draining a done queue, given the (unchanging) pending queue
and in-flight count. -/
def assertsOk (pend : List ApBuffer) (inflight : Nat) : List ApBuffer → Bool
  | [] => true
  | a :: r =>
      (!a.apbFinal || (r.isEmpty && pend.isEmpty && (inflight == 0))) &&
        assertsOk pend inflight r

/-- Submission order: the buffers handed to I2S_SEND so far are, in order,
a subsequence of the enqueue order, and what is still pending is the
not-yet-submitted tail of the enqueue order. -/
def SubFlow (priv : Wm8994Dev) : Prop :=
  ∃ u, List.Sublist (priv.i2sLog.map Prod.fst) u ∧ u ++ priv.pendq = priv.enqTrace

/-- Buffer identity `i` occurs in none of the queues nor among the buffers
already returned upstream or force-released. -/
def ZeroEverywhere (i : Nat) (priv : Wm8994Dev) : Prop :=
  countId i priv.pendq = 0 ∧ countId i priv.hwq = 0 ∧ countId i priv.doneq = 0 ∧
    countId i priv.doneRet = 0 ∧ countId i priv.forceReleased = 0

/-- From this state on, no continuation of the run that does not enqueue a
fresh buffer with identity `i` ever returns a buffer with identity `i`
upstream — neither through the done queue nor through the stop-time
drain. -/
def lostNever (cfg : Config) (i : Nat) (priv : Wm8994Dev) : Prop :=
  ∀ evs, (∀ a, Ev.apiEnqueue a ∈ evs → a.ident ≠ i) →
    countId i (run cfg evs priv).doneRet = 0 ∧
      countId i (run cfg evs priv).forceReleased = 0

/-- A fresh session state right after a successful reserve + start, with
the given stream format. -/
def sessionStart (samprate nchannels bpsamp : Nat) : Wm8994Dev :=
  { pendq := []
    doneq := []
    inflight := 0
    running := true
    paused := false
    terminating := false
    reserved := true
    mqOpen := true
    threadid := 1
    volume := 250
    samprate := samprate
    nchannels := nchannels
    bpsamp := bpsamp
    result := 0
    hwq := []
    i2sLog := []
    doneRet := []
    forceReleased := []
    enqTrace := []
    workerDone := false }

/-- A concrete test buffer. -/
def bufA : ApBuffer :=
  { ident := 1, curbyte := 0, nbytes := 4096, apbFinal := false,
    apbEnqueued := false, nrefs := 1 }

/-- A second concrete test buffer. -/
def bufB : ApBuffer :=
  { ident := 2, curbyte := 0, nbytes := 4096, apbFinal := false,
    apbEnqueued := false, nrefs := 1 }

/-- A concrete test buffer flagged AUDIO_APB_FINAL. -/
def bufC : ApBuffer :=
  { ident := 3, curbyte := 0, nbytes := 4096, apbFinal := true,
    apbEnqueued := false, nrefs := 1 }

/-- A concrete configuration whose I2S lower half accepts every buffer. -/
def cfgOk : Config :=
  { maxInflight := 2, msec2tick := id, sendRes := fun _ => 0 }

/-- A concrete configuration whose I2S lower half rejects the buffer with
identity 1 (I2S_SEND returns -5) and accepts every other buffer. -/
def cfgFail : Config :=
  { maxInflight := 2, msec2tick := id, sendRes := fun a => if a.ident = 1 then -5 else 0 }

/-- The state after enqueueing `bufA` into a fresh session and letting the
worker run one iteration under `cfgFail`: the I2S_SEND for `bufA` fails. -/
def devLost : Wm8994Dev :=
  run cfgFail [Ev.apiEnqueue bufA, Ev.worker Msg.enqueueMsg] (sessionStart 48000 2 16)

/-- A session state about to drain the final buffer: `bufA` was already
returned, `bufB` and the final `bufC` sit in the done queue, nothing is
pending or in flight. -/
def devFinal : Wm8994Dev :=
  { sessionStart 48000 2 16 with
      doneRet := [bufA]
      doneq := [bufB, bufC]
      enqTrace := [bufA, bufB, bufC] }

/-- A fresh session with `bufA` and `bufB` pending. -/
def devPend2 : Wm8994Dev :=
  { sessionStart 48000 2 16 with pendq := [bufA, bufB], enqTrace := [bufA, bufB] }

/-- A fresh session with only `bufB` pending. -/
def devPend1 : Wm8994Dev :=
  { sessionStart 48000 2 16 with pendq := [bufB], enqTrace := [bufB] }

/-- A fresh session that has been paused. -/
def devPaused : Wm8994Dev :=
  { sessionStart 48000 2 16 with paused := true }

/-- A complete happy-path schedule: enqueue one buffer, let the worker
submit it, complete it in hardware, drain the done queue, stop, and let the
worker run its exit sequence. -/
def evsHappy : List Ev :=
  [Ev.apiEnqueue bufA, Ev.worker Msg.enqueueMsg, Ev.hwComplete 0,
   Ev.worker Msg.completeMsg, Ev.worker Msg.stopMsg, Ev.worker Msg.dataRequest]

@[simp]
theorem countId_nil (i : Nat) : countId i [] = 0 := rfl

@[simp]
theorem countId_cons (i : Nat) (a : ApBuffer) (l : List ApBuffer) :
    countId i (a :: l) = countId i l + (if a.ident = i then 1 else 0) := by
  simp [countId, List.countP_cons]

@[simp]
theorem countId_append (i : Nat) (l1 l2 : List ApBuffer) :
    countId i (l1 ++ l2) = countId i l1 + countId i l2 := by
  simp [countId, List.countP_append]

theorem sendShift_eq (priv : Wm8994Dev) :
    sendShift priv = specShift priv.bpsamp priv.nchannels := by
  unfold sendShift specShift
  rfl

theorem sendTimeout_eq_spec (cfg : Config) (priv : Wm8994Dev) (apb : ApBuffer) :
    sendTimeout cfg priv apb =
      specTimeout cfg priv.bpsamp priv.nchannels priv.samprate apb.nbytes apb.curbyte := by
  unfold sendTimeout specTimeout
  rw [sendShift_eq, Nat.shiftLeft_eq]

theorem sendLoop_frame (cfg : Config) (pq : List ApBuffer) :
    ∀ (priv : Wm8994Dev) (ret : Int),
      (sendLoop cfg priv ret pq).1.doneq = priv.doneq ∧
      (sendLoop cfg priv ret pq).1.doneRet = priv.doneRet ∧
      (sendLoop cfg priv ret pq).1.forceReleased = priv.forceReleased ∧
      (sendLoop cfg priv ret pq).1.enqTrace = priv.enqTrace ∧
      (sendLoop cfg priv ret pq).1.running = priv.running ∧
      (sendLoop cfg priv ret pq).1.paused = priv.paused ∧
      (sendLoop cfg priv ret pq).1.terminating = priv.terminating ∧
      (sendLoop cfg priv ret pq).1.reserved = priv.reserved ∧
      (sendLoop cfg priv ret pq).1.mqOpen = priv.mqOpen ∧
      (sendLoop cfg priv ret pq).1.workerDone = priv.workerDone ∧
      (sendLoop cfg priv ret pq).1.threadid = priv.threadid ∧
      (sendLoop cfg priv ret pq).1.samprate = priv.samprate ∧
      (sendLoop cfg priv ret pq).1.nchannels = priv.nchannels ∧
      (sendLoop cfg priv ret pq).1.bpsamp = priv.bpsamp ∧
      (sendLoop cfg priv ret pq).1.volume = priv.volume ∧
      (sendLoop cfg priv ret pq).1.result = priv.result := by
  induction pq with
  | nil => intro priv ret; simp [sendLoop]
  | cons apb rest ih =>
      intro priv ret
      simp only [sendLoop]
      split
      · split
        · simp
        · simpa using ih _ _
      · simp

theorem sendLoop_inflight (cfg : Config) (pq : List ApBuffer) :
    ∀ (priv : Wm8994Dev) (ret : Int), priv.inflight ≤ cfg.maxInflight →
      (sendLoop cfg priv ret pq).1.inflight ≤ cfg.maxInflight := by
  induction pq with
  | nil => intro priv ret h; simpa [sendLoop] using h
  | cons apb rest ih =>
      intro priv ret h
      simp only [sendLoop]
      split
      next hc =>
        split
        · simpa using hc.1
        · exact ih _ _ (by simpa using hc.1)
      next => simpa using h

theorem sendLoop_paused (cfg : Config) (pq : List ApBuffer) (priv : Wm8994Dev)
    (ret : Int) (h : priv.paused = true) :
    sendLoop cfg priv ret pq = (priv, ret) := by
  cases pq with
  | nil => rfl
  | cons apb rest => simp [sendLoop, h]

theorem sendLoop_count_le (cfg : Config) (i : Nat) (pq : List ApBuffer) :
    ∀ (priv : Wm8994Dev) (ret : Int), priv.pendq = pq →
      countId i (sendLoop cfg priv ret pq).1.pendq +
          countId i (sendLoop cfg priv ret pq).1.hwq ≤
        countId i pq + countId i priv.hwq := by
  induction pq with
  | nil => intro priv ret hpq; simp [sendLoop, hpq]
  | cons apb rest ih =>
      intro priv ret hpq
      simp only [sendLoop]
      split
      next hc =>
        split
        · simp [countId_cons]
        · have h := ih { priv with
              pendq := rest, inflight := priv.inflight + 1,
              i2sLog := priv.i2sLog ++ [(apb, sendTimeout cfg
                { priv with pendq := rest, inflight := priv.inflight + 1 } apb)],
              hwq := priv.hwq ++ [apb] } (cfg.sendRes apb) rfl
          simp only [countId_append, countId_cons, countId_nil] at h ⊢
          omega
      next => simp [hpq]

theorem sendLoop_count_eq (cfg : Config) (i : Nat)
    (hsend : ∀ a, 0 ≤ cfg.sendRes a) (pq : List ApBuffer) :
    ∀ (priv : Wm8994Dev) (ret : Int), priv.pendq = pq →
      countId i (sendLoop cfg priv ret pq).1.pendq +
          countId i (sendLoop cfg priv ret pq).1.hwq =
        countId i pq + countId i priv.hwq := by
  induction pq with
  | nil => intro priv ret hpq; simp [sendLoop, hpq]
  | cons apb rest ih =>
      intro priv ret hpq
      simp only [sendLoop]
      split
      next hc =>
        rw [if_neg (by have := hsend apb; omega)]
        have h := ih { priv with
            pendq := rest, inflight := priv.inflight + 1,
            i2sLog := priv.i2sLog ++ [(apb, sendTimeout cfg
              { priv with pendq := rest, inflight := priv.inflight + 1 } apb)],
            hwq := priv.hwq ++ [apb] } (cfg.sendRes apb) rfl
        simp only [countId_append, countId_cons, countId_nil] at h ⊢
        omega
      next => simp [hpq]

theorem sendLoop_sub (cfg : Config) (pq : List ApBuffer) :
    ∀ (priv : Wm8994Dev) (ret : Int) (u : List ApBuffer), priv.pendq = pq →
      List.Sublist (priv.i2sLog.map Prod.fst) u → u ++ pq = priv.enqTrace →
      ∃ v, List.Sublist ((sendLoop cfg priv ret pq).1.i2sLog.map Prod.fst) v ∧
        v ++ (sendLoop cfg priv ret pq).1.pendq = (sendLoop cfg priv ret pq).1.enqTrace := by
  induction pq with
  | nil =>
      intro priv ret u hpq hsub hcat
      refine ⟨u, ?_, ?_⟩
      · simpa [sendLoop] using hsub
      · simpa [sendLoop, hpq] using hcat
  | cons apb rest ih =>
      intro priv ret u hpq hsub hcat
      simp only [sendLoop]
      split
      next hc =>
        split
        · refine ⟨u ++ [apb], ?_, ?_⟩
          · simpa using List.Sublist.append hsub (List.Sublist.refl [apb])
          · simpa using hcat
        · exact ih _ _ (u ++ [apb]) rfl
            (by simpa using List.Sublist.append hsub (List.Sublist.refl [apb]))
            (by simpa using hcat)
      next =>
        refine ⟨u, ?_, ?_⟩
        · simpa using hsub
        · rw [hpq]; exact hcat

theorem sendLoop_timeout (cfg : Config) (pq : List ApBuffer) :
    ∀ (priv : Wm8994Dev) (ret : Int) (e : ApBuffer × Nat),
      e ∈ (sendLoop cfg priv ret pq).1.i2sLog →
      e ∈ priv.i2sLog ∨
        e.2 = specTimeout cfg priv.bpsamp priv.nchannels priv.samprate
          e.1.nbytes e.1.curbyte := by
  induction pq with
  | nil => intro priv ret e he; exact Or.inl (by simpa [sendLoop] using he)
  | cons apb rest ih =>
      intro priv ret e he
      simp only [sendLoop] at he
      split at he
      next hc =>
        split at he
        · simp only [List.mem_append, List.mem_singleton] at he
          rcases he with h | rfl
          · exact Or.inl h
          · right
            simpa using sendTimeout_eq_spec cfg
              { priv with pendq := rest, inflight := priv.inflight + 1 } apb
        · rcases ih _ _ e he with h | h
          · simp only [List.mem_append, List.mem_singleton] at h
            rcases h with h2 | rfl
            · exact Or.inl h2
            · right
              simpa using sendTimeout_eq_spec cfg
                { priv with pendq := rest, inflight := priv.inflight + 1 } apb
          · exact Or.inr (by simpa using h)
      next => exact Or.inl he

theorem returnLoop_state (dq : List ApBuffer) :
    ∀ (priv : Wm8994Dev), priv.doneq = dq →
      (returnLoop priv dq).1.doneq = [] ∧
      (returnLoop priv dq).1.doneRet = priv.doneRet ++ dq ∧
      (returnLoop priv dq).1.terminating =
        ((dq.any fun a => a.apbFinal) || priv.terminating) ∧
      (returnLoop priv dq).1.pendq = priv.pendq ∧
      (returnLoop priv dq).1.hwq = priv.hwq ∧
      (returnLoop priv dq).1.inflight = priv.inflight ∧
      (returnLoop priv dq).1.i2sLog = priv.i2sLog ∧
      (returnLoop priv dq).1.enqTrace = priv.enqTrace ∧
      (returnLoop priv dq).1.forceReleased = priv.forceReleased ∧
      (returnLoop priv dq).1.running = priv.running ∧
      (returnLoop priv dq).1.paused = priv.paused ∧
      (returnLoop priv dq).1.mqOpen = priv.mqOpen ∧
      (returnLoop priv dq).1.workerDone = priv.workerDone ∧
      (returnLoop priv dq).1.reserved = priv.reserved := by
  induction dq with
  | nil => intro priv h; simp [returnLoop, h]
  | cons apb rest ih =>
      intro priv h
      simp only [returnLoop]
      have hi := ih { priv with
          doneq := rest
          terminating := apb.apbFinal || priv.terminating
          doneRet := priv.doneRet ++ [apb] } rfl
      simp only at hi
      simp only [List.any_cons]
      refine ⟨hi.1, ?_, ?_, ?_⟩
      · rw [hi.2.1]; simp
      · rw [hi.2.2.1]; cases apb.apbFinal <;> simp
      · exact hi.2.2.2

theorem returnLoop_out (dq : List ApBuffer) :
    ∀ (priv : Wm8994Dev),
      (returnLoop priv dq).2.1 = retEffectsAll dq ∧
      (returnLoop priv dq).2.2 = assertsOk priv.pendq priv.inflight dq := by
  induction dq with
  | nil => intro priv; simp [returnLoop, retEffectsAll, assertsOk]
  | cons apb rest ih =>
      intro priv
      simp only [returnLoop, retEffectsAll, assertsOk]
      have hi := ih { priv with
          doneq := rest
          terminating := apb.apbFinal || priv.terminating
          doneRet := priv.doneRet ++ [apb] }
      simp only at hi
      rw [hi.1, hi.2]
      exact ⟨rfl, rfl⟩

theorem retEffectsAll_final (bf : ApBuffer) (hbf : bf.apbFinal = true) :
    ∀ d : List ApBuffer, (∀ a ∈ d, a.apbFinal = false) →
      retEffectsAll (d ++ [bf]) =
        retEffects d ++ [Effect.setTerminating, Effect.freeBuf bf,
          Effect.notifyDequeue bf] := by
  intro d
  induction d with
  | nil => intro _; simp [retEffectsAll, retEffects, hbf]
  | cons a r ih =>
      intro hnf
      have ha : a.apbFinal = false := hnf a (by simp)
      simp only [List.cons_append, retEffectsAll, retEffects, ha, List.append_eq]
      rw [ih (fun x hx => hnf x (by simp [hx]))]
      simp

theorem assertsOk_final (bf : ApBuffer) (hbf : bf.apbFinal = true)
    (pend : List ApBuffer) (inflight : Nat) :
    ∀ d : List ApBuffer, (∀ a ∈ d, a.apbFinal = false) →
      assertsOk pend inflight (d ++ [bf]) =
        (pend.isEmpty && (inflight == 0)) := by
  intro d
  induction d with
  | nil => intro _; simp [assertsOk, hbf]
  | cons a r ih =>
      intro hnf
      have ha : a.apbFinal = false := hnf a (by simp)
      simp only [List.cons_append, assertsOk, ha, List.append_eq]
      rw [ih (fun x hx => hnf x (by simp [hx]))]
      simp

theorem drainLoop_state (pq : List ApBuffer) :
    ∀ (priv : Wm8994Dev), priv.pendq = pq →
      (drainLoop priv pq).pendq = [] ∧
      (drainLoop priv pq).forceReleased = priv.forceReleased ++ pq ∧
      (drainLoop priv pq).doneq = priv.doneq ∧
      (drainLoop priv pq).doneRet = priv.doneRet ∧
      (drainLoop priv pq).hwq = priv.hwq ∧
      (drainLoop priv pq).inflight = priv.inflight ∧
      (drainLoop priv pq).i2sLog = priv.i2sLog ∧
      (drainLoop priv pq).enqTrace = priv.enqTrace ∧
      (drainLoop priv pq).terminating = priv.terminating ∧
      (drainLoop priv pq).running = priv.running ∧
      (drainLoop priv pq).paused = priv.paused ∧
      (drainLoop priv pq).mqOpen = priv.mqOpen ∧
      (drainLoop priv pq).workerDone = priv.workerDone ∧
      (drainLoop priv pq).reserved = priv.reserved := by
  induction pq with
  | nil => intro priv h; simp [drainLoop, h]
  | cons apb rest ih =>
      intro priv h
      simp only [drainLoop]
      have hi := ih { priv with
          pendq := rest
          forceReleased := priv.forceReleased ++ [apb] } rfl
      simp only at hi
      refine ⟨hi.1, ?_, hi.2.2⟩
      rw [hi.2.1]; simp

@[simp]
theorem sendbuffer_fields (cfg : Config) (s : Wm8994Dev) :
    (wm8994_sendbuffer cfg s).1.doneq = s.doneq ∧
    (wm8994_sendbuffer cfg s).1.doneRet = s.doneRet ∧
    (wm8994_sendbuffer cfg s).1.forceReleased = s.forceReleased ∧
    (wm8994_sendbuffer cfg s).1.enqTrace = s.enqTrace ∧
    (wm8994_sendbuffer cfg s).1.running = s.running ∧
    (wm8994_sendbuffer cfg s).1.paused = s.paused ∧
    (wm8994_sendbuffer cfg s).1.terminating = s.terminating ∧
    (wm8994_sendbuffer cfg s).1.reserved = s.reserved ∧
    (wm8994_sendbuffer cfg s).1.mqOpen = s.mqOpen ∧
    (wm8994_sendbuffer cfg s).1.workerDone = s.workerDone ∧
    (wm8994_sendbuffer cfg s).1.threadid = s.threadid ∧
    (wm8994_sendbuffer cfg s).1.samprate = s.samprate ∧
    (wm8994_sendbuffer cfg s).1.nchannels = s.nchannels ∧
    (wm8994_sendbuffer cfg s).1.bpsamp = s.bpsamp ∧
    (wm8994_sendbuffer cfg s).1.volume = s.volume ∧
    (wm8994_sendbuffer cfg s).1.result = s.result :=
  sendLoop_frame cfg s.pendq s OK

@[simp]
theorem returnbuffers_fields (s : Wm8994Dev) :
    (wm8994_returnbuffers s).1.doneq = [] ∧
    (wm8994_returnbuffers s).1.doneRet = s.doneRet ++ s.doneq ∧
    (wm8994_returnbuffers s).1.terminating =
      ((s.doneq.any fun a => a.apbFinal) || s.terminating) ∧
    (wm8994_returnbuffers s).1.pendq = s.pendq ∧
    (wm8994_returnbuffers s).1.hwq = s.hwq ∧
    (wm8994_returnbuffers s).1.inflight = s.inflight ∧
    (wm8994_returnbuffers s).1.i2sLog = s.i2sLog ∧
    (wm8994_returnbuffers s).1.enqTrace = s.enqTrace ∧
    (wm8994_returnbuffers s).1.forceReleased = s.forceReleased ∧
    (wm8994_returnbuffers s).1.running = s.running ∧
    (wm8994_returnbuffers s).1.paused = s.paused ∧
    (wm8994_returnbuffers s).1.mqOpen = s.mqOpen ∧
    (wm8994_returnbuffers s).1.workerDone = s.workerDone ∧
    (wm8994_returnbuffers s).1.reserved = s.reserved :=
  returnLoop_state s.doneq s rfl

@[simp]
theorem drainPend_fields (s : Wm8994Dev) :
    (drainLoop s s.pendq).pendq = [] ∧
    (drainLoop s s.pendq).forceReleased = s.forceReleased ++ s.pendq ∧
    (drainLoop s s.pendq).doneq = s.doneq ∧
    (drainLoop s s.pendq).doneRet = s.doneRet ∧
    (drainLoop s s.pendq).hwq = s.hwq ∧
    (drainLoop s s.pendq).inflight = s.inflight ∧
    (drainLoop s s.pendq).i2sLog = s.i2sLog ∧
    (drainLoop s s.pendq).enqTrace = s.enqTrace ∧
    (drainLoop s s.pendq).terminating = s.terminating ∧
    (drainLoop s s.pendq).running = s.running ∧
    (drainLoop s s.pendq).paused = s.paused ∧
    (drainLoop s s.pendq).mqOpen = s.mqOpen ∧
    (drainLoop s s.pendq).workerDone = s.workerDone ∧
    (drainLoop s s.pendq).reserved = s.reserved :=
  drainLoop_state s.pendq s rfl

@[simp]
theorem workerExit_fields (s : Wm8994Dev) :
    (workerExit s).pendq = [] ∧
    (workerExit s).forceReleased = s.forceReleased ++ s.pendq ∧
    (workerExit s).doneq = [] ∧
    (workerExit s).doneRet = s.doneRet ++ s.doneq ∧
    (workerExit s).hwq = s.hwq ∧
    (workerExit s).inflight = s.inflight ∧
    (workerExit s).i2sLog = s.i2sLog ∧
    (workerExit s).enqTrace = s.enqTrace ∧
    (workerExit s).terminating =
      ((s.doneq.any fun a => a.apbFinal) || s.terminating) ∧
    (workerExit s).running = s.running ∧
    (workerExit s).paused = s.paused ∧
    (workerExit s).mqOpen = false ∧
    (workerExit s).workerDone = true ∧
    (workerExit s).reserved = s.reserved := by
  unfold workerExit
  simp

theorem sendbuffer_inflight (cfg : Config) (s : Wm8994Dev)
    (h : s.inflight ≤ cfg.maxInflight) :
    (wm8994_sendbuffer cfg s).1.inflight ≤ cfg.maxInflight :=
  sendLoop_inflight cfg s.pendq s OK h

theorem step_inflight (cfg : Config) (ev : Ev) (s : Wm8994Dev)
    (h : s.inflight ≤ cfg.maxInflight) :
    (step cfg ev s).inflight ≤ cfg.maxInflight := by
  cases ev with
  | worker msg =>
      simp only [step]
      split
      · exact h
      split
      · have h1 := sendbuffer_inflight cfg s h
        cases msg <;> simpa [workerIter] using h1
      · simpa using h
  | hwComplete r =>
      simp only [step]
      split
      · exact h
      · simp only [wm8994_senddone]
        omega
  | apiEnqueue apb => simpa [step, wm8994_enqueuebuffer] using h
  | apiPause =>
      simp only [step, wm8994_pause]
      split
      · simpa using h
      · exact h
  | apiResume =>
      simp only [step, wm8994_resume]
      split
      · exact sendbuffer_inflight cfg { s with paused := false } h
      · exact h

theorem sendbuffer_cons (cfg : Config) (hsend : ∀ a, 0 ≤ cfg.sendRes a)
    (s : Wm8994Dev) (h : ConsInv s) : ConsInv (wm8994_sendbuffer cfg s).1 := by
  intro i
  have hc : countId i (wm8994_sendbuffer cfg s).1.pendq +
      countId i (wm8994_sendbuffer cfg s).1.hwq =
      countId i s.pendq + countId i s.hwq :=
    sendLoop_count_eq cfg i hsend s.pendq s OK rfl
  have hf := sendbuffer_fields cfg s
  rw [hf.1, hf.2.1, hf.2.2.1, hf.2.2.2.1]
  have hh := h i
  omega

theorem returnbuffers_cons (s : Wm8994Dev) (h : ConsInv s) :
    ConsInv (wm8994_returnbuffers s).1 := by
  intro i
  have hf := returnbuffers_fields s
  rw [hf.1, hf.2.1, hf.2.2.2.1, hf.2.2.2.2.1, hf.2.2.2.2.2.2.2.1,
    hf.2.2.2.2.2.2.2.2.1]
  have hh := h i
  simp only [countId_append, countId_nil]
  omega

theorem workerExit_cons (s : Wm8994Dev) (h : ConsInv s) :
    ConsInv (workerExit s) := by
  intro i
  have hf := workerExit_fields s
  rw [hf.1, hf.2.1, hf.2.2.1, hf.2.2.2.1, hf.2.2.2.2.1, hf.2.2.2.2.2.2.2.1]
  have hh := h i
  simp only [countId_append, countId_nil]
  omega

theorem step_cons (cfg : Config) (hsend : ∀ a, 0 ≤ cfg.sendRes a) (ev : Ev)
    (s : Wm8994Dev) (h : ConsInv s) : ConsInv (step cfg ev s) := by
  cases ev with
  | worker msg =>
      simp only [step]
      split
      · exact h
      split
      · have h1 := sendbuffer_cons cfg hsend s h
        cases msg with
        | stopMsg => intro i; simpa [workerIter] using h1 i
        | completeMsg => exact returnbuffers_cons _ h1
        | dataRequest => exact h1
        | enqueueMsg => exact h1
        | unknownMsg => exact h1
      · exact workerExit_cons s h
  | hwComplete r =>
      simp only [step]
      split
      · exact h
      next apb rest hq =>
        intro i
        have hh := h i
        rw [hq] at hh
        simp only [wm8994_senddone, countId_append, countId_cons, countId_nil] at *
        omega
  | apiEnqueue apb =>
      intro i
      have hh := h i
      simp only [step, wm8994_enqueuebuffer, countId_append, countId_cons,
        countId_nil]
      omega
  | apiPause =>
      simp only [step, wm8994_pause]
      split
      · intro i; simpa using h i
      · exact h
  | apiResume =>
      simp only [step, wm8994_resume]
      split
      · exact sendbuffer_cons cfg hsend { s with paused := false } (fun i => h i)
      · exact h

theorem run_cons (cfg : Config) (hsend : ∀ a, 0 ≤ cfg.sendRes a)
    (evs : List Ev) :
    ∀ s : Wm8994Dev, ConsInv s → ConsInv (run cfg evs s) := by
  induction evs with
  | nil => intro s h; exact h
  | cons ev evs ih => intro s h; exact ih _ (step_cons cfg hsend ev s h)

theorem run_inflight (cfg : Config) (evs : List Ev) :
    ∀ s : Wm8994Dev, s.inflight ≤ cfg.maxInflight →
      (run cfg evs s).inflight ≤ cfg.maxInflight := by
  induction evs with
  | nil => intro s h; exact h
  | cons ev evs ih => intro s h; exact ih _ (step_inflight cfg ev s h)

theorem sendbuffer_paused (cfg : Config) (s : Wm8994Dev) (h : s.paused = true) :
    wm8994_sendbuffer cfg s = (s, OK) :=
  sendLoop_paused cfg s.pendq s OK h

theorem step_running (cfg : Config) (ev : Ev) (s : Wm8994Dev) :
    (step cfg ev s).running = s.running := by
  cases ev with
  | worker msg =>
      simp only [step]
      split
      · rfl
      split
      · cases msg <;> simp [workerIter]
      · simp
  | hwComplete r =>
      simp only [step]
      split
      · rfl
      · simp [wm8994_senddone]
  | apiEnqueue apb => simp [step, wm8994_enqueuebuffer]
  | apiPause =>
      simp only [step, wm8994_pause]
      split <;> simp
  | apiResume =>
      simp only [step, wm8994_resume]
      split <;> simp

theorem step_pausedLog (cfg : Config) (ev : Ev) (s : Wm8994Dev)
    (hp : s.paused = true) (hev : ev ≠ Ev.apiResume) :
    (step cfg ev s).paused = true ∧ (step cfg ev s).i2sLog = s.i2sLog := by
  cases ev with
  | worker msg =>
      simp only [step]
      split
      · exact ⟨hp, rfl⟩
      split
      · cases msg <;> simp [workerIter, sendbuffer_paused cfg s hp, hp]
      · simp [hp]
  | hwComplete r =>
      simp only [step]
      split
      · exact ⟨hp, rfl⟩
      · simp [wm8994_senddone, hp]
  | apiEnqueue apb => simp [step, wm8994_enqueuebuffer, hp]
  | apiPause =>
      simp only [step, wm8994_pause]
      split
      next hc => rw [hp] at hc; exact absurd hc.2 (by simp)
      next => exact ⟨hp, rfl⟩
  | apiResume => exact absurd rfl hev

theorem step_sub (cfg : Config) (ev : Ev) (s : Wm8994Dev) (h : SubFlow s) :
    SubFlow (step cfg ev s) := by
  obtain ⟨u, hsub, hcat⟩ := h
  cases ev with
  | worker msg =>
      simp only [step]
      split
      · exact ⟨u, hsub, hcat⟩
      split
      · have h1 : SubFlow (wm8994_sendbuffer cfg s).1 :=
          sendLoop_sub cfg s.pendq s OK u rfl hsub hcat
        obtain ⟨v, hs1, hc1⟩ := h1
        cases msg with
        | stopMsg => exact ⟨v, hs1, hc1⟩
        | completeMsg =>
            refine ⟨v, ?_, ?_⟩
            · simpa [workerIter] using hs1
            · simpa [workerIter] using hc1
        | dataRequest => exact ⟨v, hs1, hc1⟩
        | enqueueMsg => exact ⟨v, hs1, hc1⟩
        | unknownMsg => exact ⟨v, hs1, hc1⟩
      · refine ⟨s.enqTrace, ?_, ?_⟩
        · have h2 : List.Sublist u s.enqTrace :=
            hcat ▸ List.sublist_append_left u s.pendq
          simpa using List.Sublist.trans hsub h2
        · simp
  | hwComplete r =>
      simp only [step]
      split
      · exact ⟨u, hsub, hcat⟩
      · exact ⟨u, hsub, hcat⟩
  | apiEnqueue apb =>
      refine ⟨u, hsub, ?_⟩
      show u ++ (s.pendq ++ [{ apb with nrefs := apb.nrefs + 1, apbEnqueued := true }]) =
        s.enqTrace ++ [{ apb with nrefs := apb.nrefs + 1, apbEnqueued := true }]
      rw [← List.append_assoc, hcat]
  | apiPause =>
      simp only [step, wm8994_pause]
      split
      · exact ⟨u, hsub, hcat⟩
      · exact ⟨u, hsub, hcat⟩
  | apiResume =>
      simp only [step, wm8994_resume]
      split
      · exact sendLoop_sub cfg s.pendq { s with paused := false } OK u rfl hsub hcat
      · exact ⟨u, hsub, hcat⟩

theorem step_zero (cfg : Config) (i : Nat) (ev : Ev) (s : Wm8994Dev)
    (h : ZeroEverywhere i s) (hev : ∀ a, ev = Ev.apiEnqueue a → a.ident ≠ i) :
    ZeroEverywhere i (step cfg ev s) := by
  obtain ⟨h1, h2, h3, h4, h5⟩ := h
  cases ev with
  | worker msg =>
      simp only [step]
      split
      · exact ⟨h1, h2, h3, h4, h5⟩
      split
      · have hc : countId i (wm8994_sendbuffer cfg s).1.pendq +
            countId i (wm8994_sendbuffer cfg s).1.hwq ≤
            countId i s.pendq + countId i s.hwq :=
          sendLoop_count_le cfg i s.pendq s OK rfl
        have hf := sendbuffer_fields cfg s
        have hz : ZeroEverywhere i (wm8994_sendbuffer cfg s).1 := by
          refine ⟨by omega, by omega, ?_, ?_, ?_⟩
          · rw [hf.1]; exact h3
          · rw [hf.2.1]; exact h4
          · rw [hf.2.2.1]; exact h5
        obtain ⟨g1, g2, g3, g4, g5⟩ := hz
        cases msg with
        | stopMsg => exact ⟨g1, g2, g3, g4, g5⟩
        | completeMsg =>
            show ZeroEverywhere i (wm8994_returnbuffers (wm8994_sendbuffer cfg s).1).1
            have hrf := returnbuffers_fields (wm8994_sendbuffer cfg s).1
            refine ⟨?_, ?_, ?_, ?_, ?_⟩
            · rw [hrf.2.2.2.1]; exact g1
            · rw [hrf.2.2.2.2.1]; exact g2
            · rw [hrf.1]; rfl
            · rw [hrf.2.1]; simp only [countId_append]; omega
            · rw [hrf.2.2.2.2.2.2.2.2.1]; exact g5
        | dataRequest => exact ⟨g1, g2, g3, g4, g5⟩
        | enqueueMsg => exact ⟨g1, g2, g3, g4, g5⟩
        | unknownMsg => exact ⟨g1, g2, g3, g4, g5⟩
      · have hwf := workerExit_fields s
        refine ⟨?_, ?_, ?_, ?_, ?_⟩
        · rw [hwf.1]; rfl
        · rw [hwf.2.2.2.2.1]; exact h2
        · rw [hwf.2.2.1]; rfl
        · rw [hwf.2.2.2.1]; simp only [countId_append]; omega
        · rw [hwf.2.1]; simp only [countId_append]; omega
  | hwComplete r =>
      simp only [step]
      split
      · exact ⟨h1, h2, h3, h4, h5⟩
      next apb rest hq =>
        rw [hq] at h2
        simp only [countId_cons] at h2
        refine ⟨h1, ?_, ?_, h4, h5⟩
        · show countId i rest = 0
          omega
        · show countId i (s.doneq ++ [apb]) = 0
          simp only [countId_append, countId_cons, countId_nil]
          omega
  | apiEnqueue apb =>
      have hne : apb.ident ≠ i := hev apb rfl
      simp only [step, wm8994_enqueuebuffer, countId_append, countId_cons,
        countId_nil]
      refine ⟨?_, h2, h3, h4, h5⟩
      simp [hne, h1]
  | apiPause =>
      simp only [step, wm8994_pause]
      split
      · exact ⟨h1, h2, h3, h4, h5⟩
      · exact ⟨h1, h2, h3, h4, h5⟩
  | apiResume =>
      simp only [step, wm8994_resume]
      split
      · show ZeroEverywhere i (wm8994_sendbuffer cfg { s with paused := false }).1
        have hc : countId i (wm8994_sendbuffer cfg { s with paused := false }).1.pendq +
            countId i (wm8994_sendbuffer cfg { s with paused := false }).1.hwq ≤
            countId i s.pendq + countId i s.hwq :=
          sendLoop_count_le cfg i s.pendq { s with paused := false } OK rfl
        have hf := sendbuffer_fields cfg { s with paused := false }
        refine ⟨by omega, by omega, ?_, ?_, ?_⟩
        · rw [hf.1]; exact h3
        · rw [hf.2.1]; exact h4
        · rw [hf.2.2.1]; exact h5
      · exact ⟨h1, h2, h3, h4, h5⟩

theorem run_running (cfg : Config) (evs : List Ev) :
    ∀ s : Wm8994Dev, (run cfg evs s).running = s.running := by
  induction evs with
  | nil => intro s; rfl
  | cons ev evs ih => intro s; rw [run, ih, step_running]

theorem run_pausedLog (cfg : Config) (evs : List Ev) :
    ∀ s : Wm8994Dev, s.paused = true → (∀ e ∈ evs, e ≠ Ev.apiResume) →
      (run cfg evs s).paused = true ∧ (run cfg evs s).i2sLog = s.i2sLog := by
  induction evs with
  | nil => intro s hp _; exact ⟨hp, rfl⟩
  | cons ev evs ih =>
      intro s hp hev
      have hs := step_pausedLog cfg ev s hp (hev ev (by simp))
      have hr := ih (step cfg ev s) hs.1 (fun e he => hev e (by simp [he]))
      exact ⟨hr.1, by rw [run, hr.2, hs.2]⟩

theorem run_sub (cfg : Config) (evs : List Ev) :
    ∀ s : Wm8994Dev, SubFlow s → SubFlow (run cfg evs s) := by
  induction evs with
  | nil => intro s h; exact h
  | cons ev evs ih => intro s h; exact ih _ (step_sub cfg ev s h)

theorem run_zero (cfg : Config) (i : Nat) (evs : List Ev) :
    ∀ s : Wm8994Dev, ZeroEverywhere i s →
      (∀ a, Ev.apiEnqueue a ∈ evs → a.ident ≠ i) →
      ZeroEverywhere i (run cfg evs s) := by
  induction evs with
  | nil => intro s h _; exact h
  | cons ev evs ih =>
      intro s h hev
      exact ih _ (step_zero cfg i ev s h (fun a ha => hev a (by simp [ha])))
        (fun a ha => hev a (by simp [ha]))

theorem cons_concat_split (b : ApBuffer) (L : List ApBuffer) (hb : b ∉ L)
    (X Y : List ApBuffer) (h : X ++ b :: Y = L ++ [b]) : X = L ∧ Y = [] := by
  rcases List.append_eq_append_iff.1 h with ⟨m, hL, hm⟩ | ⟨m, hX, hm⟩
  · cases m with
    | nil =>
        refine ⟨by simpa using hL.symm, ?_⟩
        simpa using hm
    | cons m0 m1 =>
        exfalso
        have hb0 : b = m0 := by simpa using congrArg (fun l => l.head?) hm
        apply hb
        rw [hL, ← hb0]
        exact List.mem_append_right X (by simp)
  · cases m with
    | nil => exact ⟨by simpa using hX, by simpa using hm.symm⟩
    | cons m0 m1 =>
        exfalso
        have := congrArg List.length hm
        simp at this

/-- C1: at every observation point of a session, inflight never exceeds
CONFIG_WM8994_INFLIGHT: wm8994_sendbuffer only increments inflight while it
is below the cap, the decrement in wm8994_senddone can only lower it, and
every interleaving of worker slices, completion callbacks and API calls
preserves the bound. -/
theorem wm8994_inflight_never_exceeds_cap (cfg : Config) (s : Wm8994Dev)
    (apb : ApBuffer) (r : Int) (evs : List Ev)
    (h : s.inflight ≤ cfg.maxInflight) :
    (wm8994_sendbuffer cfg s).1.inflight ≤ cfg.maxInflight ∧
    (wm8994_senddone s apb r).inflight ≤ cfg.maxInflight ∧
    (run cfg evs s).inflight ≤ cfg.maxInflight := by
  refine ⟨sendbuffer_inflight cfg s h, ?_, run_inflight cfg evs s h⟩
  show s.inflight - 1 ≤ cfg.maxInflight
  omega

theorem wm8994_inflight_never_exceeds_cap_witness :
    devPend2.inflight ≤ cfgOk.maxInflight ∧
    ((wm8994_sendbuffer cfgOk devPend2).1.inflight ≤ cfgOk.maxInflight ∧
     (wm8994_senddone devPend2 bufA 0).inflight ≤ cfgOk.maxInflight ∧
     (run cfgOk evsHappy devPend2).inflight ≤ cfgOk.maxInflight) :=
  ⟨by decide,
   wm8994_inflight_never_exceeds_cap cfgOk devPend2 bufA 0 evsHappy (by decide)⟩

/-- C2 (counterexample): in an execution where the I2S_SEND for the single
enqueued buffer fails, that buffer ends up in no queue at all — neither
transferred into the done queue nor force-released — and no continuation of
the run (that does not enqueue a fresh buffer with the same identity) ever
returns it upstream, so the claimed "exactly once in done or
force-released" fails in failing executions. -/
theorem wm8994_buffer_lost_on_send_failure :
    countId 1 devLost.enqTrace = 1 ∧ ZeroEverywhere 1 devLost ∧
      lostNever cfgFail 1 devLost := by
  refine ⟨by decide, ⟨by decide, by decide, by decide, by decide, by decide⟩, ?_⟩
  intro evs hev
  have hz : ZeroEverywhere 1 devLost :=
    ⟨by decide, by decide, by decide, by decide, by decide⟩
  have hr := run_zero cfgFail 1 evs devLost hz hev
  exact ⟨hr.2.2.2.1, hr.2.2.2.2⟩

/-- C2 (amended): in executions where every I2S_SEND submission succeeds,
buffers are conserved: at any point where the pending queue, the in-flight
hardware queue and the done queue are all empty — in particular after the
worker's stop-time drain — every enqueued buffer has been returned upstream
exactly as often as it was enqueued, split between the done-queue returns
and the force-released buffers; a buffer enqueued once is returned exactly
once, never both ways and never neither. -/
theorem wm8994_enqueued_buffer_returned_exactly_once (cfg : Config)
    (evs : List Ev) (s : Wm8994Dev) (i : Nat)
    (hsend : ∀ a, 0 ≤ cfg.sendRes a) (hinv : ConsInv s)
    (hp : (run cfg evs s).pendq = []) (hh : (run cfg evs s).hwq = [])
    (hd : (run cfg evs s).doneq = []) :
    countId i (run cfg evs s).enqTrace =
      countId i (run cfg evs s).doneRet +
        countId i (run cfg evs s).forceReleased ∧
    (countId i (run cfg evs s).enqTrace = 1 →
      countId i (run cfg evs s).doneRet +
        countId i (run cfg evs s).forceReleased = 1) := by
  have hci := run_cons cfg hsend evs s hinv i
  rw [hp, hh, hd] at hci
  simp only [countId_nil] at hci
  exact ⟨by omega, fun h1 => by omega⟩

theorem wm8994_enqueued_buffer_returned_exactly_once_witness :
    (countId 1 (run cfgOk evsHappy (sessionStart 48000 2 16)).enqTrace =
      countId 1 (run cfgOk evsHappy (sessionStart 48000 2 16)).doneRet +
        countId 1 (run cfgOk evsHappy (sessionStart 48000 2 16)).forceReleased) ∧
    (countId 1 (run cfgOk evsHappy (sessionStart 48000 2 16)).enqTrace = 1 →
      countId 1 (run cfgOk evsHappy (sessionStart 48000 2 16)).doneRet +
        countId 1 (run cfgOk evsHappy (sessionStart 48000 2 16)).forceReleased = 1) :=
  wm8994_enqueued_buffer_returned_exactly_once cfgOk evsHappy
    (sessionStart 48000 2 16) 1 (fun _ => Int.le_refl 0) (fun _ => rfl)
    (by decide) (by decide) (by decide)

/-- C3 (counterexample): under `cfgFail` the submission of `bufA` (identity
1) fails: wm8994_sendbuffer returns -5 and `bufA` is gone from the pending
queue, so the next push cycle submits `bufB` instead — the I2S_SEND call
log over both cycles is [1, 2], showing the failed buffer is never
resubmitted, contrary to the claim that it is retried on the next
worker-loop iteration. -/
theorem wm8994_failed_buffer_not_retried :
    (wm8994_sendbuffer cfgFail devPend2).2 = -5 ∧
    (wm8994_sendbuffer cfgFail devPend2).1.pendq = [bufB] ∧
    countId 1 (wm8994_sendbuffer cfgFail devPend2).1.pendq = 0 ∧
    ((wm8994_sendbuffer cfgFail
        (wm8994_sendbuffer cfgFail devPend2).1).1.i2sLog.map
      (fun e => e.1.ident)) = [1, 2] ∧
    countId 1
      ((wm8994_sendbuffer cfgFail
        (wm8994_sendbuffer cfgFail devPend2).1).1.hwq) = 0 := by
  refine ⟨by decide, by decide, by decide, by decide, by decide⟩

/-- C3 (amended): if the I2S_SEND of the head pending buffer fails, the
error is recorded and the push loop stops for that cycle: the failed buffer
has been removed from the pending queue (it is not re-queued and not
resubmitted) with inflight left incremented, the remaining pending buffers
stay queued for the next worker-loop iteration, and the worker does not
treat the returned error as a hard fault — its running/terminating state is
exactly what it would be had the push succeeded. -/
theorem wm8994_send_failure_stops_push_loop (cfg : Config) (s : Wm8994Dev)
    (bf : ApBuffer) (rest : List ApBuffer)
    (hq : s.pendq = bf :: rest) (hr : cfg.sendRes bf < 0)
    (hc : s.inflight < cfg.maxInflight) (hp : s.paused = false) :
    wm8994_sendbuffer cfg s =
      ({ s with
          pendq := rest
          inflight := s.inflight + 1
          i2sLog := s.i2sLog ++ [(bf, sendTimeout cfg s bf)] },
       cfg.sendRes bf) ∧
    (workerIter cfg Msg.dataRequest s).terminating = s.terminating ∧
    (workerIter cfg Msg.dataRequest s).running = s.running := by
  refine ⟨?_, by simp [workerIter], by simp [workerIter]⟩
  show sendLoop cfg s OK s.pendq = _
  rw [hq]
  simp only [sendLoop]
  rw [if_pos ⟨hc, hp⟩, if_pos hr]
  rfl

theorem wm8994_send_failure_stops_push_loop_witness :
    wm8994_sendbuffer cfgFail devPend2 =
      ({ devPend2 with
          pendq := [bufB]
          inflight := devPend2.inflight + 1
          i2sLog := devPend2.i2sLog ++
            [(bufA, sendTimeout cfgFail devPend2 bufA)] },
       cfgFail.sendRes bufA) ∧
    (workerIter cfgFail Msg.dataRequest devPend2).terminating =
      devPend2.terminating ∧
    (workerIter cfgFail Msg.dataRequest devPend2).running =
      devPend2.running :=
  wm8994_send_failure_stops_push_loop cfgFail devPend2 bufA [bufB]
    (by decide) (by decide) (by decide) (by decide)

/-- C4: while the session is paused, no buffer is submitted to the I2S
transport no matter how the producer, the worker and the hardware
interleave (as long as resume is not called): the I2S_SEND call log stays
unchanged and the session stays paused; enqueue still succeeds, appending
at the tail of pending; and wm8994_resume clears paused and immediately
calls wm8994_sendbuffer. -/
theorem wm8994_paused_blocks_submission (cfg : Config) (evs : List Ev)
    (s : Wm8994Dev) (a : ApBuffer)
    (hp : s.paused = true) (hr : s.running = true)
    (hnr : ∀ e ∈ evs, e ≠ Ev.apiResume) :
    (run cfg evs s).i2sLog = s.i2sLog ∧
    (run cfg evs s).paused = true ∧
    (wm8994_enqueuebuffer (run cfg evs s) a).2 = OK ∧
    (wm8994_enqueuebuffer (run cfg evs s) a).1.pendq =
      (run cfg evs s).pendq ++
        [{ a with nrefs := a.nrefs + 1, apbEnqueued := true }] ∧
    wm8994_resume cfg (run cfg evs s) =
      ((wm8994_sendbuffer cfg
        { (run cfg evs s) with paused := false }).1, OK) := by
  have hpl := run_pausedLog cfg evs s hp hnr
  have hrr : (run cfg evs s).running = true := by rw [run_running]; exact hr
  refine ⟨hpl.2, hpl.1, rfl, rfl, ?_⟩
  rw [wm8994_resume, if_pos ⟨hrr, hpl.1⟩]

theorem wm8994_paused_blocks_submission_witness :
    (run cfgOk [Ev.apiEnqueue bufA, Ev.worker Msg.enqueueMsg,
        Ev.apiEnqueue bufB] devPaused).i2sLog = devPaused.i2sLog ∧
    (run cfgOk [Ev.apiEnqueue bufA, Ev.worker Msg.enqueueMsg,
        Ev.apiEnqueue bufB] devPaused).paused = true ∧
    (wm8994_enqueuebuffer (run cfgOk [Ev.apiEnqueue bufA,
        Ev.worker Msg.enqueueMsg, Ev.apiEnqueue bufB] devPaused) bufC).2 = OK ∧
    (wm8994_enqueuebuffer (run cfgOk [Ev.apiEnqueue bufA,
        Ev.worker Msg.enqueueMsg, Ev.apiEnqueue bufB] devPaused) bufC).1.pendq =
      (run cfgOk [Ev.apiEnqueue bufA, Ev.worker Msg.enqueueMsg,
        Ev.apiEnqueue bufB] devPaused).pendq ++
        [{ bufC with nrefs := bufC.nrefs + 1, apbEnqueued := true }] ∧
    wm8994_resume cfgOk (run cfgOk [Ev.apiEnqueue bufA,
        Ev.worker Msg.enqueueMsg, Ev.apiEnqueue bufB] devPaused) =
      ((wm8994_sendbuffer cfgOk
          { (run cfgOk [Ev.apiEnqueue bufA, Ev.worker Msg.enqueueMsg,
              Ev.apiEnqueue bufB] devPaused) with paused := false }).1, OK) :=
  wm8994_paused_blocks_submission cfgOk
    [Ev.apiEnqueue bufA, Ev.worker Msg.enqueueMsg, Ev.apiEnqueue bufB]
    devPaused bufC (by decide) (by decide) (by decide)

/-- C5: every I2S_SEND call wm8994_sendbuffer adds to the log carries the
timeout MSEC2TICK(((nbytes - curbyte) << shift) / samprate) with
shift = (bpsamp == 8 ? 11 : 10) - (nchannels > 1 ? 1 : 0), exactly the
specification's formula `specTimeout` computed over unsigned 32-bit
arithmetic. -/
theorem wm8994_send_timeout_formula (cfg : Config) (s : Wm8994Dev)
    (e : ApBuffer × Nat)
    (he : e ∈ (wm8994_sendbuffer cfg s).1.i2sLog) :
    e ∈ s.i2sLog ∨
      e.2 = specTimeout cfg s.bpsamp s.nchannels s.samprate
        e.1.nbytes e.1.curbyte :=
  sendLoop_timeout cfg s.pendq s OK e he

theorem wm8994_send_timeout_formula_witness :
    (bufB, 43) ∈ devPend1.i2sLog ∨
      ((bufB, 43) : ApBuffer × Nat).2 =
        specTimeout cfgOk devPend1.bpsamp devPend1.nchannels devPend1.samprate
          ((bufB, 43) : ApBuffer × Nat).1.nbytes
          ((bufB, 43) : ApBuffer × Nat).1.curbyte :=
  wm8994_send_timeout_formula cfgOk devPend1 (bufB, 43) (by decide)

/-- C6: whenever wm8994_returnbuffers pops a buffer carrying
AUDIO_APB_FINAL, under the single-producer/single-terminal-buffer
assumption (the final buffer is the last of the enqueue order, the earlier
ones are not final, and the queues carry the enqueued buffers in order with
inflight counting the hardware queue), the pending queue and the rest of
the done queue are empty and inflight is 0 — the DEBUGASSERT never fires —
and the function sets terminating to true before releasing the final buffer
and notifying upstream. -/
theorem wm8994_final_buffer_drain_assert (s : Wm8994Dev) (bf : ApBuffer)
    (L : List ApBuffer)
    (hord : s.doneRet ++ s.doneq ++ s.hwq ++ s.pendq = s.enqTrace)
    (htrace : s.enqTrace = L ++ [bf])
    (hfin : bf.apbFinal = true)
    (hL : ∀ a ∈ L, a.apbFinal = false)
    (hmem : bf ∈ s.doneq)
    (hinf : s.inflight = s.hwq.length) :
    s.pendq = [] ∧ s.hwq = [] ∧ s.inflight = 0 ∧
    (wm8994_returnbuffers s).2.2 = true ∧
    (wm8994_returnbuffers s).1.terminating = true ∧
    ∃ d, s.doneq = d ++ [bf] ∧
      (wm8994_returnbuffers s).2.1 =
        retEffects d ++ [Effect.setTerminating, Effect.freeBuf bf,
          Effect.notifyDequeue bf] := by
  have hbfL : bf ∉ L := fun hm => by
    rw [hL bf hm] at hfin
    exact absurd hfin (by simp)
  obtain ⟨B1, B2, hB⟩ := List.append_of_mem hmem
  have hkey : (s.doneRet ++ B1) ++ bf :: (B2 ++ s.hwq ++ s.pendq) = L ++ [bf] := by
    have h0 := hord
    rw [hB, htrace] at h0
    simpa using h0
  have hsplit := cons_concat_split bf L hbfL _ _ hkey
  have h2 := List.append_eq_nil.mp hsplit.2
  have h3 := List.append_eq_nil.mp h2.1
  have hhw : s.hwq = [] := h3.2
  have hpq : s.pendq = [] := h2.2
  have hB2 : B2 = [] := h3.1
  have hinf0 : s.inflight = 0 := by rw [hinf, hhw]; rfl
  have hdq : s.doneq = B1 ++ [bf] := by rw [hB, hB2]
  have hB1 : ∀ a ∈ B1, a.apbFinal = false := fun a ha =>
    hL a (by rw [← hsplit.1]; exact List.mem_append_right _ ha)
  have hout := returnLoop_out s.doneq s
  refine ⟨hpq, hhw, hinf0, ?_, ?_, B1, hdq, ?_⟩
  · show (returnLoop s s.doneq).2.2 = true
    rw [hout.2, hdq, assertsOk_final bf hfin s.pendq s.inflight B1 hB1,
      hpq, hinf0]
    rfl
  · have hf := returnbuffers_fields s
    rw [hf.2.2.1, hdq]
    simp [hfin]
  · show (returnLoop s s.doneq).2.1 = _
    rw [hout.1, hdq, retEffectsAll_final bf hfin B1 hB1]

theorem wm8994_final_buffer_drain_assert_witness :
    devFinal.pendq = [] ∧ devFinal.hwq = [] ∧ devFinal.inflight = 0 ∧
    (wm8994_returnbuffers devFinal).2.2 = true ∧
    (wm8994_returnbuffers devFinal).1.terminating = true ∧
    ∃ d, devFinal.doneq = d ++ [bufC] ∧
      (wm8994_returnbuffers devFinal).2.1 =
        retEffects d ++ [Effect.setTerminating, Effect.freeBuf bufC,
          Effect.notifyDequeue bufC] :=
  wm8994_final_buffer_drain_assert devFinal bufC [bufA, bufB] (by decide)
    (by decide) (by decide) (by decide) (by decide) (by decide)

/-- C7: buffers reach the I2S transport in FIFO order relative to enqueue
calls: wm8994_enqueuebuffer appends at the tail of the pending queue, and
since wm8994_sendbuffer always submits from the head of the pending queue,
the sequence of buffers handed to I2S_SEND over any run is, in order, a
subsequence of the enqueue order — two buffers enqueued in some order are
submitted in that same order. -/
theorem wm8994_fifo_submission_order (cfg : Config) (evs : List Ev)
    (s : Wm8994Dev) (a : ApBuffer) (h : SubFlow s) :
    (wm8994_enqueuebuffer s a).1.pendq =
      s.pendq ++ [{ a with nrefs := a.nrefs + 1, apbEnqueued := true }] ∧
    List.Sublist ((run cfg evs s).i2sLog.map Prod.fst)
      (run cfg evs s).enqTrace := by
  refine ⟨rfl, ?_⟩
  obtain ⟨u, hsub, hcat⟩ := run_sub cfg evs s h
  exact List.Sublist.trans hsub
    (hcat ▸ List.sublist_append_left u (run cfg evs s).pendq)

theorem wm8994_fifo_submission_order_witness :
    (wm8994_enqueuebuffer (sessionStart 48000 2 16) bufC).1.pendq =
      (sessionStart 48000 2 16).pendq ++
        [{ bufC with nrefs := bufC.nrefs + 1, apbEnqueued := true }] ∧
    List.Sublist ((run cfgOk evsHappy
        (sessionStart 48000 2 16)).i2sLog.map Prod.fst)
      (run cfgOk evsHappy (sessionStart 48000 2 16)).enqTrace :=
  wm8994_fifo_submission_order cfgOk evsHappy (sessionStart 48000 2 16) bufC
    ⟨[], List.nil_sublist [], rfl⟩

/-- C8: wm8994_reserve on an already reserved session returns -EBUSY with
the state untouched; on an unreserved session it initializes inflight to 0,
clears running, paused and terminating, sets reserved, and returns OK. -/
theorem wm8994_reserve_busy_or_init (s : Wm8994Dev) :
    (s.reserved = true → wm8994_reserve s = (s, -EBUSY)) ∧
    (s.reserved = false →
      wm8994_reserve s =
        ({ s with
            inflight := 0
            running := false
            paused := false
            terminating := false
            reserved := true }, OK)) := by
  constructor <;> intro h <;> simp [wm8994_reserve, h]

/-- C9: when mq_open fails in wm8994_start, the function returns -ENOMEM
at once: no worker thread is launched (threadid untouched), and the whole
session state — reserved, running, paused, terminating, inflight, the
queues — is exactly as before apart from priv->mq being the NULL just
assigned, so the session remains reserved for a later start attempt. -/
theorem wm8994_start_mq_failure (s : Wm8994Dev) (newTid : Nat)
    (pthreadRes : Int) :
    (wm8994_start false newTid pthreadRes s).2 = -ENOMEM ∧
    (wm8994_start false newTid pthreadRes s).1 = { s with mqOpen := false } ∧
    (wm8994_start false newTid pthreadRes s).1.threadid = s.threadid ∧
    (wm8994_start false newTid pthreadRes s).1.reserved = s.reserved ∧
    (wm8994_start false newTid pthreadRes s).1.running = s.running ∧
    (wm8994_start false newTid pthreadRes s).1.paused = s.paused ∧
    (wm8994_start false newTid pthreadRes s).1.terminating = s.terminating ∧
    (wm8994_start false newTid pthreadRes s).1.inflight = s.inflight ∧
    (wm8994_start false newTid pthreadRes s).1.pendq = s.pendq := by
  simp [wm8994_start]

/-- C10: wm8994_cancelbuffer returns OK and changes nothing: the driver
state is untouched (the buffer is not removed from pending, no reference
is released, inflight is unchanged, nothing is notified upstream), and any
subsequent run behaves exactly as if cancel had never been called. -/
theorem wm8994_cancelbuffer_noop (s : Wm8994Dev) (apb : ApBuffer)
    (cfg : Config) (evs : List Ev) :
    wm8994_cancelbuffer s apb = (s, OK) ∧
    run cfg evs (wm8994_cancelbuffer s apb).1 = run cfg evs s :=
  ⟨rfl, rfl⟩

end WM8994
